import Mathlib

/-!
Shallow embedding of the file-transfer session logic of `src/App.jsx`
(upload session, download session, URL translation, size formatting), with
theorems checking the specification's claims against it.

Modelling conventions:
* JS strings are Lean `String`s; scanning works on `String.data`.
* The JS regexes `/\/download\/(.+)$/` and the `filename` regex are modelled
  by explicit left-to-right scans with JS semantics: the wildcard does not
  match line terminators, alternation prefers the left branch, star is
  greedy, lazy star stops at the first closing quote.
* Byte counts are `Nat`; progress fractions are `ℚ`; `parseInt` returns
  `Option Int` where `none` models `NaN`.
* Transport outcomes (`XMLHttpRequest` / `fetch`) are passed as explicit
  values; each session operation returns its final state together with the
  number of network requests it issued.
-/

/-- One selected file: name and size in bytes (the payload is irrelevant to
the session logic). -/
structure FileDesc where
  name : String
  size : Nat
deriving DecidableEq

/-- One link-bearing field (`downloadLink`, `url`, `link`) of a parsed JSON
body, keeping exactly the distinctions `uploadFiles` can observe: the field
is absent (`undefined`), a string, some other truthy value (a plain object,
an array, a non-zero number or `true` — `JSON.parse` gives none of these a
`.match` method, so calling it throws a TypeError), or some other falsy
value (`null`, `0` or `false` — skipped by `||` and by `if`). -/
inductive JsField where
  | undefined
  | str (s : String)
  | truthyNonString
  | falsyNonString
deriving DecidableEq

/-- JS truthiness of a field value: `undefined`, the empty string and the
falsy non-strings are falsy. -/
def JsField.truthy : JsField → Bool
  | .undefined => false
  | .str s => !(s == "")
  | .truthyNonString => true
  | .falsyNonString => false

/-- JS `a || b` on field values. -/
def jsOr (a b : JsField) : JsField :=
  if a.truthy then a else b

/-- Result of an upload attempt as stored in the `result` React state:
`success` corresponds to `{type:'success', downloadUrl, backendUrl, files}`
(`backendUrl` keeps the raw chosen field value, possibly `undefined`),
`error` to `{type:'error', message}`. -/
inductive UploadResult where
  | success (downloadUrl : String) (backendUrl : JsField) (files : List String)
  | error (message : String)
deriving DecidableEq

/-- The upload session's React state. -/
structure UploadSessionState where
  selectedFiles : List FileDesc
  isUploading : Bool
  uploadProgress : ℚ
  result : Option UploadResult
deriving DecidableEq

/-- JS line terminators, which the regex wildcard never matches without the
`s` flag. -/
def isLineTerm (c : Char) : Bool :=
  c == '\n' || c == '\r' || c == Char.ofNat 8232 || c == Char.ofNat 8233

/-- Every character of `l` is matchable by the JS regex wildcard. -/
def noLineTerm (l : List Char) : Bool :=
  l.all fun c => !isLineTerm c

/-- Bool test that `p` is a leading segment of `l`. -/
def pfx : List Char → List Char → Bool
  | [], _ => true
  | _ :: _, [] => false
  | a :: p, b :: l => a == b && pfx p l

/-- The characters of the literal part of the regex `/\/download\/(.+)$/`. -/
def dlc : List Char := "/download/".data

/-- Attempt of the regex `/\/download\/(.+)$/` at the current position: the
literal must be a leading segment and the rest of the input must be a
non-empty run of wildcard-matchable characters reaching the end. -/
def dlAt (s : List Char) : Option (List Char) :=
  if pfx dlc s then
    if !(s.drop 10).isEmpty && noLineTerm (s.drop 10) then some (s.drop 10) else none
  else none

/-- Left-to-right search of `/\/download\/(.+)$/`, returning capture group 1. -/
def dlScan : List Char → Option (List Char)
  | [] => none
  | c :: t =>
    match dlAt (c :: t) with
    | some r => some r
    | none => dlScan t

/-- Extraction of the file identifier from a path, from
`path.match(/\/download\/(.+)$/)` in `getFileIdFromPath` (the upload success
handler applies the same regex to the backend link). -/
def getFileIdFromPath (path : String) : Option String :=
  (dlScan path.data).map fun l => String.mk l

/-- Does `"/download/"` occur anywhere in `l` as a contiguous segment? -/
def hasDl : List Char → Bool
  | [] => false
  | c :: t => pfx dlc (c :: t) || hasDl t

/-- JS `String.prototype.startsWith` on character lists. -/
def startsWithJS (p s : String) : Bool := pfx p.data s.data

/-- URL translation from the upload success handler (`App.jsx` lines
132-144): an internal link of the form `/download/{id}` becomes
`{origin}/download/{id}`; otherwise an absolute URL is kept as is and a
relative one is prefixed with the service base. -/
def toPublic (backendDownloadLink : String) (origin : String) : String :=
  match getFileIdFromPath backendDownloadLink with
  | some fileId => origin ++ "/download/" ++ fileId
  | none =>
    if startsWithJS "http" backendDownloadLink then backendDownloadLink
    else "https://upload-qodp.onrender.com" ++ backendDownloadLink

/-- The fields of a parsed JSON object that `uploadFiles` reads. `files` is
modelled as absent or an array of names; a non-array `files` value would
only change what is stored in the success record, not the control flow. -/
structure JsonObj where
  downloadLink : JsField
  url : JsField
  link : JsField
  files : Option (List String)
deriving DecidableEq

/-- Value the upload promise resolves with on a status-200 response, as far
as `uploadFiles` can observe it: `nonObject` covers both a `JSON.parse`
failure (the promise then resolves with the raw `responseText`, a string)
and a body parsing to a string, number, boolean or array — reading the link
fields of any of these yields `undefined`; `nullValue` is a body parsing to
JSON `null`, where reading `response.downloadLink` throws a TypeError;
`obj` is a body parsing to an object with the observed fields. -/
inductive ResolvedBody where
  | nonObject
  | nullValue
  | obj (ob : JsonObj)
deriving DecidableEq

/-- Outcome of the upload `XMLHttpRequest`: a network error, or a completed
response with its status, raw text, and resolved body value. -/
inductive XhrOutcome where
  | netError
  | response (status : Nat) (bodyText : String) (body : ResolvedBody)

/-- Message of the TypeError thrown at `App.jsx` line 129 when the body
parsed to JSON `null`. ECMA-262 leaves TypeError messages host-defined;
this is the V8 wording, and no theorem depends on the exact text. -/
def nullLinkTypeError : String :=
  "Cannot read properties of null (reading 'downloadLink')"

/-- Message of the TypeError thrown at `App.jsx` line 134 when the chosen
link field is a truthy non-string without a `.match` method; host-defined,
V8 wording, and no theorem depends on the exact text. -/
def matchTypeError : String :=
  "backendDownloadLink.match is not a function"

/-- The `uploadFiles` handler (`App.jsx` lines 89-169) as a function from the
pre-state and the transport outcome to the post-state (after the `finally`
block) paired with the number of network requests issued. On status 200 the
handler reads `response.downloadLink || response.url || response.link` —
which throws on a `null` body — and, when the chosen value is truthy, calls
`.match` on it — which throws on a truthy non-string; both TypeErrors land
in the catch block and end the session Failed with the files kept. -/
def uploadFiles (st : UploadSessionState) (origin : String) (o : XhrOutcome) :
    UploadSessionState × Nat :=
  if st.selectedFiles = [] then (st, 0)
  else
    match o with
    | .netError =>
      ({ st with result := some (.error "Upload failed - Network error"),
                 isUploading := false, uploadProgress := 0 }, 1)
    | .response status text body =>
      if status = 200 then
        match body with
        | .nullValue =>
          ({ st with result := some (.error nullLinkTypeError),
                     isUploading := false, uploadProgress := 0 }, 1)
        | .nonObject =>
          ({ selectedFiles := [], isUploading := false, uploadProgress := 0,
             result := some (.success "" .undefined (st.selectedFiles.map (·.name))) }, 1)
        | .obj ob =>
          match jsOr ob.downloadLink (jsOr ob.url ob.link) with
          | .truthyNonString =>
            ({ st with result := some (.error matchTypeError),
                       isUploading := false, uploadProgress := 0 }, 1)
          | bl =>
            ({ selectedFiles := [], isUploading := false, uploadProgress := 0,
               result := some (.success
                 (match bl with
                  | .str s => if s = "" then "" else toPublic s origin
                  | _ => "")
                 bl
                 (match ob.files with
                  | some fs => fs
                  | none => st.selectedFiles.map (·.name))) }, 1)
      else
        ({ st with
             result := some (.error (if text = "" then "HTTP " ++ toString status else text)),
             isUploading := false, uploadProgress := 0 }, 1)

/-- The `xhr.upload` progress listener (`App.jsx` lines 104-109). -/
def progressEvent (st : UploadSessionState) (lengthComputable : Bool)
    (loaded total : ℚ) : UploadSessionState :=
  if lengthComputable then { st with uploadProgress := loaded / total * 100 } else st

/-- Indexed filter underlying `selectedFiles.filter((_, i) => i !== index)`. -/
def removeFileAux (idx : Int) : Nat → List FileDesc → List FileDesc
  | _, [] => []
  | i, f :: t =>
    if (i : Int) = idx then removeFileAux idx (i + 1) t
    else f :: removeFileAux idx (i + 1) t

/-- The `removeFile` handler (`App.jsx` lines 68-71). -/
def removeFile (st : UploadSessionState) (idx : Int) : UploadSessionState :=
  { st with selectedFiles := removeFileAux idx 0 st.selectedFiles }

/-- Fuelled base-1024 logarithm: `Math.floor(Math.log(bytes)/Math.log(1024))`
is exact for every integer byte count a JS number can hold, and 64 division
steps cover every count below `1024 ^ 64`. -/
def log1024Aux : Nat → Nat → Nat
  | 0, _ => 0
  | fuel + 1, n => if n < 1024 then 0 else log1024Aux fuel (n / 1024) + 1

def log1024 (n : Nat) : Nat := log1024Aux 64 n

/-- The value of `bytes / p` in integer hundredths, rounded as `toFixed(2)`
rounds a positive value (half away from zero):
`floor(bytes / p * 100 + 1/2) = (200 * bytes + p) / (2 * p)`. -/
def roundHundredths (bytes p : Nat) : Nat :=
  (200 * bytes + p) / (2 * p)

/-- Rendering of `parseFloat(x.toFixed(2))` given the value of `x` in
hundredths: print up to two decimals, dropping trailing zeros the way
`parseFloat` drops them. -/
def jsToFixed2Trim (n : Nat) : String :=
  if n % 100 = 0 then toString (n / 100)
  else if n % 100 % 10 = 0 then toString (n / 100) ++ "." ++ toString (n % 100 / 10)
  else if n % 100 < 10 then toString (n / 100) ++ ".0" ++ toString (n % 100)
  else toString (n / 100) ++ "." ++ toString (n % 100)

/-- The `formatFileSize` helper (`App.jsx` lines 81-87). The binary64
computation `parseFloat((bytes / Math.pow(k, i)).toFixed(2))` is modelled by
the exact rational arithmetic of `roundHundredths`; the byte counts the
claims exercise are exactly representable, where the two agree. -/
def formatFileSize (bytes : Nat) : String :=
  if bytes = 0 then "0 Bytes"
  else
    jsToFixed2Trim (roundHundredths bytes (1024 ^ log1024 bytes)) ++ " " ++
      (["Bytes", "KB", "MB", "GB"].getD (log1024 bytes) "undefined")

/-- JS whitespace accepted by `parseInt` (the common subset). -/
def isJsWs (c : Char) : Bool :=
  c == ' ' || c == '\t' || c == '\n' || c == '\r' || c == Char.ofNat 11 || c == Char.ofNat 12

/-- Value of the leading base-10 digits, `none` when there are none. -/
def decDigitsVal (l : List Char) : Option Nat :=
  let ds := l.takeWhile Char.isDigit
  if ds.isEmpty then none
  else some (ds.foldl (fun a c => a * 10 + (c.toNat - 48)) 0)

def isHexDig (c : Char) : Bool :=
  c.isDigit || ('a' ≤ c && c ≤ 'f') || ('A' ≤ c && c ≤ 'F')

def hexVal (c : Char) : Nat :=
  if c.isDigit then c.toNat - 48
  else if 'a' ≤ c && c ≤ 'f' then c.toNat - 87
  else c.toNat - 55

/-- Value of the leading base-16 digits, `none` when there are none. -/
def hexDigitsVal (l : List Char) : Option Nat :=
  let ds := l.takeWhile isHexDig
  if ds.isEmpty then none
  else some (ds.foldl (fun a c => a * 16 + hexVal c) 0)

/-- Leading-digit parse of JS `parseInt` with no radix argument: an optional
`0x`/`0X` selects base 16, otherwise leading base-10 digits are read. -/
def parseNatPart : List Char → Option Nat
  | '0' :: c :: t =>
    if c == 'x' || c == 'X' then hexDigitsVal t else decDigitsVal ('0' :: c :: t)
  | l => decDigitsVal l

/-- JS `parseInt(s)`; `none` models `NaN`. -/
def parseIntJS (s : String) : Option Int :=
  match s.data.dropWhile isJsWs with
  | '-' :: t => (parseNatPart t).map fun n => -(n : Int)
  | '+' :: t => (parseNatPart t).map fun n => (n : Int)
  | t => (parseNatPart t).map fun n => (n : Int)

/-- Search for the lazy quoted body of the filename regex: the characters
before the first closing quote, provided no line terminator intervenes. -/
def quotedBody (q : Char) : List Char → Option (List Char)
  | [] => none
  | c :: t =>
    if c == q then some []
    else if isLineTerm c then none
    else (quotedBody q t).map fun a => c :: a

/-- Capture group 1 of the filename regex evaluated on the text after the
equals sign: the quoted alternative is preferred, the unquoted greedy run
over characters other than semicolon and newline is the fallback. -/
def filenameGroup (v : List Char) : List Char :=
  match v with
  | [] => []
  | q :: w =>
    if q == '\'' || q == '"' then
      match quotedBody q w with
      | some a => q :: (a ++ [q])
      | none => (q :: w).takeWhile fun c => !(c == ';' || c == '\n')
    else (q :: w).takeWhile fun c => !(c == ';' || c == '\n')

/-- Attempt of the filename regex at the current position: the literal
`filename`, a greedy run over characters other than semicolon, equals and
newline, then an equals sign; the attempt fails when no equals sign follows
the run. -/
def filenameAt (s : List Char) : Option (List Char) :=
  if pfx "filename".data s then
    let rest := s.drop 8
    let run := rest.takeWhile fun c => !(c == ';' || c == '=' || c == '\n')
    match rest.drop run.length with
    | '=' :: v => some (filenameGroup v)
    | _ => none
  else none

/-- Left-to-right search of the filename regex, returning capture group 1. -/
def filenameScan : List Char → Option (List Char)
  | [] => none
  | c :: t =>
    match filenameAt (c :: t) with
    | some g => some g
    | none => filenameScan t

/-- The `fileInfo` record set on download success; `size` is `none` when the
code stores `NaN` (a present but unparseable `Content-Length`). -/
structure FileInfo where
  filename : String
  size : Option Int
  type : String
deriving DecidableEq

/-- Derivation of `fileInfo` from the response headers and the retrieved
blob size (`App.jsx` lines 398-425); `none` models an absent header. -/
def mkFileInfo (contentDisposition contentType contentLength : Option String)
    (blobSize : Nat) : FileInfo :=
  let filename :=
    match contentDisposition with
    | none => "download"
    | some h =>
      if h = "" then "download"
      else
        match filenameScan h.data with
        | none => "download"
        | some g =>
          if g.isEmpty then "download"
          else String.mk (g.filter fun c => !(c == '\'' || c == '"'))
  let size : Option Int :=
    match contentLength with
    | none => some blobSize
    | some s => if s = "" then some blobSize else parseIntJS s
  let ty :=
    match contentType with
    | none => "application/octet-stream"
    | some s => if s = "" then "application/octet-stream" else s
  ⟨filename, size, ty⟩

/-- The download page's React state after the effect settles. -/
structure DownloadState where
  downloadStatus : String
  errorMessage : String
  fileInfo : Option FileInfo
deriving DecidableEq

/-- Outcome of the download `fetch`: rejection with an exception message, or
a response with status, status text, the three headers, and the size of the
retrieved blob. -/
inductive FetchOutcome where
  | netError (msg : String)
  | response (status : Nat) (statusText : String)
      (contentDisposition contentType contentLength : Option String) (blobSize : Nat)

/-- The download effect (`App.jsx` lines 376-436): identifier check, then
`downloadFile`, returning the settled state paired with the number of
`fetch` calls issued. -/
def downloadRun (path : String) (o : FetchOutcome) : DownloadState × Nat :=
  match getFileIdFromPath path with
  | none => (⟨"error", "No file ID provided", none⟩, 0)
  | some fid =>
    if fid = "" then (⟨"error", "No file ID provided", none⟩, 0)
    else
      match o with
      | .netError msg =>
        (⟨"error", if msg = "" then "Failed to download file" else msg, none⟩, 1)
      | .response status statusText cd ct cl blobSize =>
        if 200 ≤ status ∧ status < 300 then
          (⟨"success", "", some (mkFileInfo cd ct cl blobSize)⟩, 1)
        else
          (⟨"error", "Download failed: " ++ toString status ++ " " ++ statusText, none⟩, 1)

/-- Claim-level extractor, for refinement comparison with the code: the
entire remainder of the path after the first occurrence of `/download/`,
required non-empty. -/
def specExtractAux : List Char → Option (List Char)
  | [] => none
  | c :: t =>
    if pfx dlc (c :: t) then
      if ((c :: t).drop 10).isEmpty then none else some ((c :: t).drop 10)
    else specExtractAux t

/-- Claim-level extractor on strings. -/
def specExtractId (path : String) : Option String :=
  (specExtractAux path.data).map fun l => String.mk l

/-! ### Helper lemmas about strings and the download-link scan -/

theorem strData_append (a b : String) : (a ++ b).data = a.data ++ b.data := rfl

theorem strAppend_assoc (a b c : String) : (a ++ b) ++ c = a ++ (b ++ c) :=
  congrArg String.mk (List.append_assoc a.data b.data c.data)

theorem strData_ne_nil {s : String} (h : s ≠ "") : s.data ≠ [] := by
  intro hd
  exact h (congrArg String.mk hd)

theorem pfx_iff (p : List Char) : ∀ l, pfx p l = true ↔ ∃ r, l = p ++ r := by
  induction p with
  | nil => intro l; simp [pfx]
  | cons a p ih =>
    intro l
    cases l with
    | nil =>
      simp only [pfx, Bool.false_eq_true, false_iff]
      rintro ⟨r, hr⟩
      exact List.noConfusion hr
    | cons b t =>
      simp only [pfx, Bool.and_eq_true, beq_iff_eq]
      constructor
      · rintro ⟨rfl, h⟩
        obtain ⟨r, rfl⟩ := (ih t).mp h
        exact ⟨r, rfl⟩
      · rintro ⟨r, h⟩
        injection h with h1 h2
        exact ⟨h1.symm, (ih t).mpr ⟨r, h2⟩⟩

theorem pfx_append (p r : List Char) : pfx p (p ++ r) = true :=
  (pfx_iff p _).mpr ⟨r, rfl⟩

theorem noLineTerm_drop {l : List Char} (n : Nat) (h : noLineTerm l = true) :
    noLineTerm (l.drop n) = true := by
  simp only [noLineTerm, List.all_eq_true] at h ⊢
  exact fun c hc => h c (List.drop_subset n l hc)

theorem dlAt_eq_some (s r : List Char) :
    dlAt s = some r ↔ s = dlc ++ r ∧ r ≠ [] ∧ noLineTerm r = true := by
  constructor
  · intro h
    unfold dlAt at h
    split at h
    case isTrue hp =>
      obtain ⟨z, rfl⟩ := (pfx_iff dlc s).mp hp
      have hz : (dlc ++ z).drop 10 = z := by
        rw [show (10 : Nat) = dlc.length from rfl]
        exact List.drop_left dlc z
      rw [hz] at h
      split at h
      case isTrue hc =>
        injection h with h
        subst h
        refine ⟨rfl, ?_, ?_⟩
        · intro hz
          subst hz
          simp at hc
        · exact (Bool.and_eq_true _ _ |>.mp hc).2
      case isFalse hc => exact absurd h (by simp)
    case isFalse hp => exact absurd h (by simp)
  · rintro ⟨rfl, hne, hnl⟩
    unfold dlAt
    rw [if_pos (pfx_append dlc r)]
    have hz : (dlc ++ r).drop 10 = r := by
      rw [show (10 : Nat) = dlc.length from rfl]
      exact List.drop_left dlc r
    rw [hz]
    rw [if_pos]
    cases r with
    | nil => exact absurd rfl hne
    | cons c t => simp [hnl]

theorem dlScan_cons_of_some {c : Char} {t r : List Char} (h : dlAt (c :: t) = some r) :
    dlScan (c :: t) = some r := by
  conv_lhs => unfold dlScan
  rw [h]

theorem dlScan_cons_of_none {c : Char} {t : List Char} (h : dlAt (c :: t) = none) :
    dlScan (c :: t) = dlScan t := by
  conv_lhs => unfold dlScan
  rw [h]

theorem dlScan_eq_of_dlAt {s r : List Char} (hs : s ≠ []) (h : dlAt s = some r) :
    dlScan s = some r := by
  cases s with
  | nil => exact absurd rfl hs
  | cons c t => exact dlScan_cons_of_some h

theorem dlScan_sound : ∀ (l r : List Char), dlScan l = some r →
    (∃ p, l = p ++ (dlc ++ r)) ∧ r ≠ [] ∧ noLineTerm r = true := by
  intro l
  induction l with
  | nil => intro r h; exact absurd h (by simp [dlScan])
  | cons c t ih =>
    intro r h
    cases hat : dlAt (c :: t) with
    | some r2 =>
      rw [dlScan_cons_of_some hat] at h
      injection h with h
      subst h
      obtain ⟨heq, hne, hnl⟩ := (dlAt_eq_some _ _).mp hat
      exact ⟨⟨[], by rw [heq]; rfl⟩, hne, hnl⟩
    | none =>
      rw [dlScan_cons_of_none hat] at h
      obtain ⟨⟨p, hp⟩, hne, hnl⟩ := ih r h
      exact ⟨⟨c :: p, by rw [hp]; rfl⟩, hne, hnl⟩

theorem pfx_dl_case (o r : List Char) (hne : o ≠ [])
    (h : pfx dlc (o ++ (dlc ++ r)) = true) : hasDl (o ++ ['/']) = true := by
  have h10 : (o ++ (dlc ++ r)).take 10 = dlc := by
    obtain ⟨z, hz⟩ := (pfx_iff dlc _).mp h
    rw [hz, show (10 : Nat) = dlc.length from rfl, List.take_left]
  rw [List.take_append_eq_append_take] at h10
  by_cases hlen : 10 ≤ o.length
  · rw [Nat.sub_eq_zero_of_le hlen, List.take_zero, List.append_nil] at h10
    have hpo : pfx dlc (o ++ ['/']) = true := by
      apply (pfx_iff _ _).mpr
      refine ⟨o.drop 10 ++ ['/'], ?_⟩
      rw [← List.append_assoc, ← h10, List.take_append_drop]
    cases o with
    | nil => exact absurd rfl hne
    | cons c t =>
      show hasDl (c :: (t ++ ['/'])) = true
      unfold hasDl
      rw [show c :: (t ++ ['/']) = (c :: t) ++ ['/'] from rfl, hpo, Bool.true_or]
  · push_neg at hlen
    have hole : o.take 10 = o := List.take_of_length_le (by omega)
    have hdctake : (dlc ++ r).take (10 - o.length) = dlc.take (10 - o.length) := by
      have hdl : dlc.length = 10 := rfl
      rw [List.take_append_eq_append_take,
        show 10 - o.length - dlc.length = 0 from by omega, List.take_zero,
        List.append_nil]
    rw [hole, hdctake] at h10
    have hoo : o = dlc.take o.length :=
      calc o = (o ++ dlc.take (10 - o.length)).take o.length := (List.take_left o _).symm
        _ = dlc.take o.length := by rw [h10]
    have h1 : 1 ≤ o.length := by
      cases o with
      | nil => exact absurd rfl hne
      | cons a b => simp
    have h9 : o.length ≤ 9 := by omega
    generalize hn : o.length = n at h10 hoo h1 h9
    interval_cases n <;> rw [hoo] at h10 ⊢ <;>
      first
        | decide
        | exact absurd h10 (by decide)

theorem dlScan_prepend : ∀ (o r : List Char), hasDl (o ++ ['/']) = false →
    r ≠ [] → noLineTerm r = true → dlScan (o ++ (dlc ++ r)) = some r := by
  intro o
  induction o with
  | nil =>
    intro r h hne hnl
    rw [List.nil_append]
    exact dlScan_eq_of_dlAt (by simp [dlc]) ((dlAt_eq_some _ _).mpr ⟨rfl, hne, hnl⟩)
  | cons c t ih =>
    intro r h hne hnl
    have hstep : pfx dlc ((c :: t) ++ (dlc ++ r)) = false := by
      cases hp : pfx dlc ((c :: t) ++ (dlc ++ r)) with
      | false => rfl
      | true =>
        have hd := pfx_dl_case (c :: t) r (by simp) hp
        rw [hd] at h
        exact absurd h (by simp)
    have hat : dlAt ((c :: t) ++ (dlc ++ r)) = none := by
      unfold dlAt
      rw [hstep]
      simp
    have hc : (c :: t) ++ (dlc ++ r) = c :: (t ++ (dlc ++ r)) := rfl
    rw [hc] at hat
    rw [hc, dlScan_cons_of_none hat]
    apply ih
    · have h' : hasDl (c :: (t ++ ['/'])) = false := h
      unfold hasDl at h'
      rcases Bool.or_eq_false_iff.mp h' with ⟨-, h2⟩
      exact h2
    · exact hne
    · exact hnl

theorem dlScan_eq_spec : ∀ (l : List Char), noLineTerm l = true →
    dlScan l = specExtractAux l := by
  intro l
  induction l with
  | nil => intro _; rfl
  | cons c t ih =>
    intro hnl
    have hnt : noLineTerm t = true := by
      simp only [noLineTerm, List.all_cons, Bool.and_eq_true] at hnl
      exact hnl.2
    cases hp : pfx dlc (c :: t) with
    | false =>
      have hat : dlAt (c :: t) = none := by
        unfold dlAt
        rw [hp]
        simp
      rw [dlScan_cons_of_none hat]
      conv_rhs => unfold specExtractAux
      rw [hp]
      simp only [Bool.false_eq_true, if_false]
      exact ih hnt
    | true =>
      obtain ⟨z, hz⟩ := (pfx_iff _ _).mp hp
      have hdrop : (c :: t).drop 10 = z := by
        rw [hz, show (10 : Nat) = dlc.length from rfl, List.drop_left]
      cases z with
      | nil =>
        have hct : c :: t = '/' :: "download/".data := by
          rw [hz]
          rfl
        injection hct with hc1 hc2
        subst hc1
        subst hc2
        decide
      | cons z0 zt =>
        have hat : dlAt (c :: t) = some (z0 :: zt) := by
          apply (dlAt_eq_some _ _).mpr
          refine ⟨hz, by simp, ?_⟩
          rw [← hdrop]
          exact noLineTerm_drop 10 hnl
        rw [dlScan_cons_of_some hat]
        conv_rhs => unfold specExtractAux
        rw [hp, hdrop]
        rw [if_pos rfl, if_neg (by simp)]

theorem getFileId_some_decomp {path id : String} (h : getFileIdFromPath path = some id) :
    (∃ pre, path = pre ++ ("/download/" ++ id)) ∧ id ≠ "" := by
  unfold getFileIdFromPath at h
  cases hs : dlScan path.data with
  | none => rw [hs] at h; exact absurd h (by simp)
  | some r =>
    rw [hs] at h
    simp only [Option.map_some', Option.some.injEq] at h
    obtain ⟨⟨p, hp⟩, hne, -⟩ := dlScan_sound path.data r hs
    subst h
    constructor
    · refine ⟨String.mk p, ?_⟩
      have hmk : String.mk path.data = String.mk p ++ ("/download/" ++ String.mk r) := by
        rw [hp]
        rfl
      exact hmk
    · intro hcon
      exact hne (congrArg String.data hcon)

/-! ### Claim C4: empty-batch upload is a no-op -/

/-- Claim C4: calling `startUpload` with an empty file batch is a no-op: the
session state is returned unchanged (status and all fields untouched) and no
network request is issued. -/
theorem c4_empty_batch (st : UploadSessionState) (origin : String) (o : XhrOutcome)
    (h : st.selectedFiles = []) :
    uploadFiles st origin o = (st, 0) := by
  unfold uploadFiles
  rw [if_pos h]

/-- Witness for C4 at a concrete empty-batch state. -/
theorem c4_empty_batch_witness :
    uploadFiles ⟨[], false, 0, none⟩ "https://app.example"
        (.response 200 "{}" (.obj ⟨.undefined, .undefined, .undefined, none⟩))
      = (⟨[], false, 0, none⟩, 0) :=
  c4_empty_batch _ _ _ rfl

/-! ### Claim C10: removeFile -/

theorem removeFileAux_eq (idx : Int) :
    ∀ (l : List FileDesc) (i : Nat),
      removeFileAux idx i l =
        if (i : Int) ≤ idx ∧ idx < (i : Int) + l.length then
          l.take (idx - (i : Int)).toNat ++ l.drop ((idx - (i : Int)).toNat + 1)
        else l := by
  intro l
  induction l with
  | nil =>
    intro i
    simp [removeFileAux]
  | cons f t ih =>
    intro i
    by_cases he : (i : Int) = idx
    · conv_lhs => unfold removeFileAux
      rw [if_pos he, ih (i + 1)]
      rw [if_neg (by push_cast; omega)]
      rw [if_pos (by push_cast [List.length_cons]; omega)]
      have h0 : (idx - (i : Int)).toNat = 0 := by omega
      rw [h0, List.take_zero, List.nil_append, List.drop_succ_cons, List.drop_zero]
    · conv_lhs => unfold removeFileAux
      rw [if_neg he, ih (i + 1)]
      by_cases hc : (i : Int) ≤ idx ∧ idx < (i : Int) + ((f :: t).length : Int)
      · have hc1 : ((i + 1 : Nat) : Int) ≤ idx ∧ idx < ((i + 1 : Nat) : Int) + (t.length : Int) := by
          push_cast
          push_cast [List.length_cons] at hc
          omega
        rw [if_pos hc1, if_pos hc]
        have hk : (idx - (i : Int)).toNat = (idx - ((i + 1 : Nat) : Int)).toNat + 1 := by
          push_cast
          push_cast at hc1
          omega
        rw [hk, List.take_succ_cons, List.drop_succ_cons]
        rfl
      · rw [if_neg (by push_cast; push_cast [List.length_cons] at hc; omega), if_neg hc]

/-- Claim C10: `removeFile(index)` with an index outside `[0, length)`
(including negative indices) leaves the batch and the whole session state
unchanged; with an in-range index it removes exactly the descriptor at that
position, preserves the order of the rest, and touches no other field. -/
theorem c10_removeFile (st : UploadSessionState) (idx : Int) :
    removeFile st idx =
      { st with selectedFiles :=
          if 0 ≤ idx ∧ idx < (st.selectedFiles.length : Int) then
            st.selectedFiles.take idx.toNat ++ st.selectedFiles.drop (idx.toNat + 1)
          else st.selectedFiles } := by
  unfold removeFile
  rw [removeFileAux_eq idx st.selectedFiles 0]
  norm_num

/-! ### Claim C8: size formatting -/

theorem log1024Aux_succ (fuel n : Nat) :
    log1024Aux (fuel + 1) n = if n < 1024 then 0 else log1024Aux fuel (n / 1024) + 1 := rfl

/-- Claim C8 (amended): `formatFileSize` maps a byte count to a
`Bytes/KB/MB/GB` string using base 1024 with at most two decimals — the
trailing zeros are removed by the `parseFloat` wrapping, so `1024 ↦ "1 KB"`
and `1536 ↦ "1.5 KB"` rather than `"1.00 KB"` / `"1.50 KB"`; `0` renders as
`"0 Bytes"` and any count below 1024 renders as the plain count plus
`" Bytes"`. -/
theorem c8_formatFileSize :
    formatFileSize 0 = "0 Bytes"
    ∧ formatFileSize 1024 = "1 KB"
    ∧ formatFileSize 1536 = "1.5 KB"
    ∧ formatFileSize 1100 = "1.07 KB"
    ∧ formatFileSize 1048576 = "1 MB"
    ∧ formatFileSize 1073741824 = "1 GB"
    ∧ (∀ b : Nat, 0 < b → b < 1024 → formatFileSize b = toString b ++ " Bytes") := by
  refine ⟨by decide, by decide, by decide, by decide, by decide, by decide, ?_⟩
  intro b hb hlt
  unfold formatFileSize
  rw [if_neg (by omega)]
  have hi : log1024 b = 0 := by
    unfold log1024
    rw [show (64 : Nat) = 63 + 1 from rfl, log1024Aux_succ, if_pos hlt]
  rw [hi]
  have hr : roundHundredths b (1024 ^ 0) = 100 * b := by
    unfold roundHundredths
    rw [pow_zero]
    omega
  rw [hr]
  unfold jsToFixed2Trim
  rw [if_pos (by omega)]
  rw [show 100 * b / 100 = b from by omega]
  rw [strAppend_assoc]
  rfl

/-- Counterexample to C8 as stated: the code pipes `toFixed(2)` through
`parseFloat`, which drops trailing zeros, so 1024 bytes format as `"1 KB"`
and 1536 as `"1.5 KB"`, not the claimed `"1.00 KB"` / `"1.50 KB"`. -/
theorem c8_cex :
    formatFileSize 1024 = "1 KB" ∧ formatFileSize 1024 ≠ "1.00 KB"
    ∧ formatFileSize 1536 ≠ "1.50 KB" :=
  ⟨by decide, by decide, by decide⟩

/-- Witness for C8 at a concrete small byte count. -/
theorem c8_formatFileSize_witness : formatFileSize 5 = toString 5 ++ " Bytes" :=
  c8_formatFileSize.2.2.2.2.2.2 5 (by decide) (by decide)

/-! ### Claim C5: missing download identifier -/

/-- Claim C5: for every path that does not match the `/download/{id}` pattern
(no decomposition with a non-empty identifier exists), `getFileIdFromPath`
returns `null`, and the download session goes straight to the error state
with message `No file ID provided` while issuing zero network calls. -/
theorem c5_no_identifier (path : String) (o : FetchOutcome)
    (h : ∀ pre id, path = pre ++ ("/download/" ++ id) → id = "") :
    getFileIdFromPath path = none
    ∧ downloadRun path o = (⟨"error", "No file ID provided", none⟩, 0) := by
  have hn : getFileIdFromPath path = none := by
    cases hs : getFileIdFromPath path with
    | none => rfl
    | some id =>
      obtain ⟨⟨pre, hp⟩, hne⟩ := getFileId_some_decomp hs
      exact absurd (h pre id hp) hne
  refine ⟨hn, ?_⟩
  unfold downloadRun
  rw [hn]

/-- Witness for C5 at the concrete non-matching path `/files/x`. -/
theorem c5_no_identifier_witness :
    downloadRun "/files/x" (.netError "boom") = (⟨"error", "No file ID provided", none⟩, 0) := by
  refine (c5_no_identifier "/files/x" (.netError "boom") ?_).2
  intro pre id hp
  exfalso
  have hd := congrArg String.data hp
  rw [strData_append, strData_append] at hd
  have hlen := congrArg List.length hd
  rw [List.length_append, List.length_append] at hlen
  have h8 : ("/files/x" : String).data.length = 8 := rfl
  have h10 : ("/download/" : String).data.length = 10 := rfl
  rw [h8, h10] at hlen
  omega

/-! ### Claim C9: identifier extractor never returns the empty string -/

/-- Claim C9 (amended): the extractor returns `null` or a non-empty string,
and whenever it returns an identifier the path decomposes as
`pre ++ "/download/" ++ id`; on paths free of line terminators the
identifier is exactly the remainder after the first occurrence of
`/download/`. (On paths containing a line terminator the JS wildcard skips
occurrences whose remainder crosses it, so the first occurrence need not be
the one matched.) -/
theorem c9_extractor (path : String) :
    (∀ id, getFileIdFromPath path = some id → id ≠ "")
    ∧ (∀ id, getFileIdFromPath path = some id → ∃ pre, path = pre ++ ("/download/" ++ id))
    ∧ (noLineTerm path.data = true → getFileIdFromPath path = specExtractId path) := by
  refine ⟨fun id h => (getFileId_some_decomp h).2,
    fun id h => (getFileId_some_decomp h).1, ?_⟩
  intro hnl
  unfold getFileIdFromPath specExtractId
  rw [dlScan_eq_spec path.data hnl]

/-- Counterexample to C9 as stated: on a path containing a newline the match
is not anchored at the first occurrence of `/download/` — the JS wildcard
cannot cross the newline, so the engine matches a later occurrence. -/
theorem c9_cex :
    getFileIdFromPath "/download/a\n/download/b" = some "b"
    ∧ specExtractId "/download/a\n/download/b" = some "a\n/download/b"
    ∧ ("b" : String) ≠ "a\n/download/b" :=
  ⟨by decide, by decide, by decide⟩

/-- Witness for C9 at the concrete path `/download/xyz`. -/
theorem c9_extractor_witness :
    ("xyz" : String) ≠ ""
    ∧ (∃ pre, ("/download/xyz" : String) = pre ++ ("/download/" ++ "xyz"))
    ∧ getFileIdFromPath "/download/xyz" = specExtractId "/download/xyz" := by
  have h := c9_extractor "/download/xyz"
  exact ⟨h.1 "xyz" (by decide), h.2.1 "xyz" (by decide), h.2.2 (by decide)⟩

/-! ### Claim C3: extraction round-trip -/

/-- Claim C3 (amended): for every non-empty identifier without a slash and
without line terminators, and every origin that neither contains
`/download/` nor ends in `/download`, extraction round-trips through the
URL translation: `extractId (toPublic ("/download/" ++ id) origin) = id`.
The claim as stated fails for the empty identifier. -/
theorem c3_roundtrip (id origin : String)
    (hne : id ≠ "") (hslash : '/' ∉ id.data)
    (hnl : noLineTerm id.data = true)
    (horig : hasDl ((origin ++ "/").data) = false) :
    getFileIdFromPath (toPublic ("/download/" ++ id) origin) = some id := by
  have h1 : getFileIdFromPath ("/download/" ++ id) = some id := by
    unfold getFileIdFromPath
    rw [strData_append]
    have hpre := dlScan_prepend [] id.data (by decide) (strData_ne_nil hne) hnl
    rw [List.nil_append] at hpre
    rw [show ("/download/" : String).data = dlc from rfl, hpre]
    rfl
  unfold toPublic
  rw [h1]
  show getFileIdFromPath ((origin ++ "/download/") ++ id) = some id
  unfold getFileIdFromPath
  rw [strData_append, strData_append, List.append_assoc]
  rw [show ("/download/" : String).data = dlc from rfl]
  have horig2 : hasDl (origin.data ++ ['/']) = false := by
    rw [strData_append] at horig
    exact horig
  rw [dlScan_prepend origin.data id.data horig2 (strData_ne_nil hne) hnl]
  rfl

/-- Counterexample to C3 as stated: the empty identifier contains no slash,
yet the round-trip loses it — `toPublic "/download/"` falls back to the
service-base URL and extraction then returns `null`, not `some ""`. -/
theorem c3_cex :
    ('/' ∉ ("" : String).data)
    ∧ getFileIdFromPath (toPublic ("/download/" ++ "") "https://app.example") ≠ some "" :=
  ⟨by decide, by decide⟩

/-- Witness for C3 at a concrete identifier and origin. -/
theorem c3_roundtrip_witness :
    getFileIdFromPath (toPublic ("/download/" ++ "abc123") "https://app.example") = some "abc123" :=
  c3_roundtrip "abc123" "https://app.example" (by decide) (by decide) (by decide) (by decide)

/-! ### Claim C1: upload failure classification -/

/-- Claim C1 (amended): with a non-empty batch, the session ends Failed
exactly when the transport reports a network error, the HTTP status differs
from 200 (the code tests `status === 200`, not "2xx"), or the status is 200
and reading the link from the parsed body throws — the body parsed to JSON
`null`, or the first truthy link field is a non-string without a `.match`
method. A status-200 response whose body is unparseable JSON does not fail:
the code resolves with the raw text and the session ends Succeeded. For
transport-level failures the message is the raw response body when
non-empty, else `HTTP {status}`, else the sentinel
`Upload failed - Network error`; the two throw paths carry the host's
TypeError message. -/
theorem c1_failure (st : UploadSessionState) (origin : String) (o : XhrOutcome)
    (hne : st.selectedFiles ≠ []) :
    ((∃ m, ((uploadFiles st origin o).1).result = some (.error m)) ↔
      (o = .netError
        ∨ (∃ s t b, o = .response s t b ∧ s ≠ 200)
        ∨ (∃ t, o = .response 200 t .nullValue)
        ∨ (∃ t ob, o = .response 200 t (.obj ob)
            ∧ jsOr ob.downloadLink (jsOr ob.url ob.link) = .truthyNonString)))
    ∧ (o = .netError →
        ((uploadFiles st origin o).1).result = some (.error "Upload failed - Network error"))
    ∧ (∀ s t b, o = .response s t b → s ≠ 200 →
        ((uploadFiles st origin o).1).result
          = some (.error (if t = "" then "HTTP " ++ toString s else t))) := by
  cases o with
  | netError =>
    have hres : ((uploadFiles st origin .netError).1).result
        = some (.error "Upload failed - Network error") := by
      simp [uploadFiles, hne]
    refine ⟨⟨fun _ => Or.inl rfl, fun _ => ⟨_, hres⟩⟩, fun _ => hres, ?_⟩
    intro s t b hcon
    exact XhrOutcome.noConfusion hcon
  | response s t body =>
    by_cases hs : s = 200
    · subst hs
      have herr : (∃ m, ((uploadFiles st origin (.response 200 t body)).1).result
            = some (.error m)) ↔
          (body = .nullValue ∨ ∃ ob, body = .obj ob
            ∧ jsOr ob.downloadLink (jsOr ob.url ob.link) = .truthyNonString) := by
        cases body with
        | nonObject => simp [uploadFiles, hne]
        | nullValue => simp [uploadFiles, hne]
        | obj ob =>
          cases hbl : jsOr ob.downloadLink (jsOr ob.url ob.link) with
          | undefined => simp [uploadFiles, hne, hbl]
          | str v => simp [uploadFiles, hne, hbl]
          | truthyNonString => simp [uploadFiles, hne, hbl]
          | falsyNonString => simp [uploadFiles, hne, hbl]
      constructor
      · constructor
        · intro hm
          rcases herr.mp hm with hnull | ⟨ob, hob, hbl⟩
          · exact Or.inr (Or.inr (Or.inl ⟨t, by rw [hnull]⟩))
          · exact Or.inr (Or.inr (Or.inr ⟨t, ob, by rw [hob], hbl⟩))
        · rintro (hcon | ⟨s2, t2, b2, heq, h200⟩ | ⟨t2, heq⟩ | ⟨t2, ob2, heq, hbl2⟩)
          · exact XhrOutcome.noConfusion hcon
          · injection heq with e1 e2 e3
            exact absurd e1.symm h200
          · injection heq with e1 e2 e3
            exact herr.mpr (Or.inl e3)
          · injection heq with e1 e2 e3
            exact herr.mpr (Or.inr ⟨ob2, e3, hbl2⟩)
      · refine ⟨fun hcon => XhrOutcome.noConfusion hcon, ?_⟩
        intro s2 t2 b2 heq h200
        injection heq with e1 e2 e3
        exact absurd e1.symm h200
    · have hres : ((uploadFiles st origin (.response s t body)).1).result
          = some (.error (if t = "" then "HTTP " ++ toString s else t)) := by
        simp [uploadFiles, hne, hs]
      refine ⟨⟨fun _ => Or.inr (Or.inl ⟨s, t, body, rfl, hs⟩), fun _ => ⟨_, hres⟩⟩,
        fun hcon => XhrOutcome.noConfusion hcon, ?_⟩
      intro s2 t2 b2 heq h200
      injection heq with e1 e2 e3
      subst e1
      subst e2
      subst e3
      exact hres

/-- Counterexample to C1 as stated: a status-200 response with an
unparseable body ends Succeeded with an empty link — the code resolves with
the raw text — while the claim requires Failed on an unparseable body. -/
theorem c1_cex :
    ((uploadFiles ⟨[⟨"a.txt", 3⟩], false, 0, none⟩ "https://app.example"
        (.response 200 "not json" .nonObject)).1).result
      = some (.success "" .undefined ["a.txt"]) := by
  decide

/-- Witness for C1: the spec's upload-failure scenario, HTTP 500 with body
`disk full`, ends Failed with message exactly `disk full`. -/
theorem c1_failure_witness :
    ((uploadFiles ⟨[⟨"a.txt", 3⟩], false, 0, none⟩ "https://app.example"
        (.response 500 "disk full" .nonObject)).1).result = some (.error "disk full") := by
  have h := (c1_failure ⟨[⟨"a.txt", 3⟩], false, 0, none⟩ "https://app.example"
      (.response 500 "disk full" .nonObject) (by decide)).2.2 500 "disk full" .nonObject rfl
      (by decide)
  rw [if_neg (by decide)] at h
  exact h

/-! ### Claim C2: upload success path -/

/-- Claim C2: on a status-200 response whose parsed body carries a transfer
reference, the link is the first non-empty of `downloadLink`, `url`, `link`
in that order; a link of the form `/download/{id}` is translated to
`{origin}/download/{id}`; the session ends Succeeded with
`{publicUrl, internalUrl, files}` populated and the batch emptied. -/
theorem c2_upload_success (st : UploadSessionState) (origin text : String) (ob : JsonObj)
    (lk fid : String)
    (hne : st.selectedFiles ≠ [])
    (hlk : jsOr ob.downloadLink (jsOr ob.url ob.link) = .str lk)
    (hlkne : lk ≠ "")
    (hmatch : getFileIdFromPath lk = some fid) :
    uploadFiles st origin (.response 200 text (.obj ob))
      = (⟨[], false, 0, some (.success ((origin ++ "/download/") ++ fid) (.str lk)
          (match ob.files with
           | some fs => fs
           | none => st.selectedFiles.map (·.name)))⟩, 1)
    ∧ (∀ v, ob.downloadLink = .str v → v ≠ "" → lk = v)
    ∧ (ob.downloadLink.truthy = false → ∀ v, ob.url = .str v → v ≠ "" → lk = v)
    ∧ (ob.downloadLink.truthy = false → ob.url.truthy = false → ob.link = .str lk) := by
  refine ⟨?_, ?_, ?_, ?_⟩
  · simp [uploadFiles, hne, hlk, hlkne, toPublic, hmatch]
  · intro v hv hvne
    unfold jsOr at hlk
    rw [hv, if_pos (by simp [JsField.truthy, hvne])] at hlk
    injection hlk with h
    exact h.symm
  · intro hdl v hv hvne
    unfold jsOr at hlk
    rw [hdl, if_neg (by simp), hv, if_pos (by simp [JsField.truthy, hvne])] at hlk
    injection hlk with h
    exact h.symm
  · intro hdl hurl
    unfold jsOr at hlk
    rw [hdl, if_neg (by simp), hurl, if_neg (by simp)] at hlk
    exact hlk

/-- Witness for C2: the spec's upload-success scenario — two files and a
response `{downloadLink:"/download/abc123"}` end Succeeded with the public
URL ending in `/download/abc123` and an empty batch. -/
theorem c2_upload_success_witness :
    uploadFiles ⟨[⟨"a.txt", 1⟩, ⟨"b.txt", 2⟩], false, 0, none⟩ "https://app.example"
        (.response 200 "" (.obj ⟨.str "/download/abc123", .undefined, .undefined, none⟩))
      = (⟨[], false, 0, some (.success "https://app.example/download/abc123"
          (.str "/download/abc123") ["a.txt", "b.txt"])⟩, 1) := by
  have h := (c2_upload_success ⟨[⟨"a.txt", 1⟩, ⟨"b.txt", 2⟩], false, 0, none⟩
      "https://app.example" "" ⟨.str "/download/abc123", .undefined, .undefined, none⟩
      "/download/abc123" "abc123" (by decide) (by decide) (by decide) (by decide)).1
  exact h

/-! ### Claim C7: progress recomputation, monotonicity and reset -/

/-- Claim C7: every computable progress event recomputes
`progressPercent = loaded/total*100`; for a non-decreasing sequence of
loaded values on one in-flight upload (fixed positive total) the resulting
percentages are non-decreasing; and on completion of the upload — success
or failure — the progress is reset to 0. -/
theorem c7_progress (st : UploadSessionState) (total : ℚ) (ls : List ℚ)
    (origin : String) (o : XhrOutcome)
    (htotal : 0 < total) (hmono : List.Chain' (· ≤ ·) ls) :
    (∀ (st2 : UploadSessionState) (l : ℚ),
      (progressEvent st2 true l total).uploadProgress = l / total * 100)
    ∧ List.Chain' (· ≤ ·)
        (ls.map fun l => (progressEvent st true l total).uploadProgress)
    ∧ (st.selectedFiles ≠ [] → ((uploadFiles st origin o).1).uploadProgress = 0) := by
  have hpe : ∀ (st2 : UploadSessionState) (l : ℚ),
      (progressEvent st2 true l total).uploadProgress = l / total * 100 := fun _ _ => rfl
  refine ⟨hpe, ?_, ?_⟩
  · rw [List.chain'_map]
    refine List.Chain'.imp ?_ hmono
    intro a b hab
    rw [hpe st a, hpe st b]
    have h1 : a / total ≤ b / total := (div_le_div_iff_of_pos_right htotal).mpr hab
    exact mul_le_mul_of_nonneg_right h1 (by norm_num)
  · intro hbatch
    cases o with
    | netError => simp [uploadFiles, hbatch]
    | response s t body =>
      by_cases hs : s = 200
      · subst hs
        cases body with
        | nonObject => simp [uploadFiles, hbatch]
        | nullValue => simp [uploadFiles, hbatch]
        | obj ob =>
          cases hbl : jsOr ob.downloadLink (jsOr ob.url ob.link) with
          | undefined => simp [uploadFiles, hbatch, hbl]
          | str v => simp [uploadFiles, hbatch, hbl]
          | truthyNonString => simp [uploadFiles, hbatch, hbl]
          | falsyNonString => simp [uploadFiles, hbatch, hbl]
      · simp [uploadFiles, hbatch, hs]

/-- Witness for C7 at a concrete event sequence and a network-error
completion. -/
theorem c7_progress_witness :
    List.Chain' (· ≤ ·)
      (([1, 5, 10] : List ℚ).map fun l =>
        (progressEvent ⟨[⟨"a.txt", 3⟩], true, 0, none⟩ true l 10).uploadProgress)
    ∧ ((uploadFiles ⟨[⟨"a.txt", 3⟩], true, 0, none⟩ "https://app.example"
        .netError).1).uploadProgress = 0 := by
  have h := c7_progress ⟨[⟨"a.txt", 3⟩], true, 0, none⟩ 10 [1, 5, 10] "https://app.example"
      .netError (by norm_num) (by norm_num [List.chain'_cons, List.chain'_singleton])
  exact ⟨h.2.1, h.2.2 (by decide)⟩

/-! ### Claim C6: download fileInfo derivation -/

/-- Claim C6 (amended): on download success the filename comes from the
`Content-Disposition` filename pattern with every quote character removed,
defaulting to `download` when the header is absent or the pattern yields
nothing; the mime type defaults to `application/octet-stream` when
`Content-Type` is absent; the size equals `parseInt(Content-Length)` when
that header is present and non-empty — which is `NaN`, not the blob length,
when the value is unparseable — and falls back to the retrieved byte length
only when the header is absent or empty. -/
theorem c6_fileInfo (b : Nat) :
    mkFileInfo none none none b = ⟨"download", some (b : Int), "application/octet-stream"⟩
    ∧ mkFileInfo (some "attachment; filename=\"report.pdf\"") none (some "2048") b
        = ⟨"report.pdf", some 2048, "application/octet-stream"⟩
    ∧ (∀ s, s ≠ "" → (mkFileInfo none none (some s) b).size = parseIntJS s)
    ∧ (mkFileInfo none none (some "") b).size = some (b : Int)
    ∧ (∀ ct, ct ≠ "" → (mkFileInfo none (some ct) none b).type = ct) := by
  refine ⟨rfl, rfl, ?_, rfl, ?_⟩
  · intro s hs
    simp [mkFileInfo, hs]
  · intro ct h
    simp [mkFileInfo, h]

/-- Counterexample to C6 as stated: a present but unparseable
`Content-Length` (here `"abc"` with a 5-byte blob) stores `NaN` — modelled
as `none` — rather than defaulting to the retrieved byte length. -/
theorem c6_cex :
    (mkFileInfo none none (some "abc") 5).size = none
    ∧ (mkFileInfo none none (some "abc") 5).size ≠ some 5 :=
  ⟨by decide, by decide⟩

/-- Witness for C6 at the spec's download-success scenario headers. -/
theorem c6_fileInfo_witness :
    (mkFileInfo none none (some "2048") 7).size = parseIntJS "2048"
    ∧ (mkFileInfo none (some "text/plain") none 7).type = "text/plain" :=
  ⟨(c6_fileInfo 7).2.2.1 "2048" (by decide), (c6_fileInfo 7).2.2.2.2 "text/plain" (by decide)⟩
